import Mathlib

/-!
Verification of the rudis in-memory key-value store (Rust) against its
natural-language specification.

Shallow embedding conventions:
* Rust byte buffers (`Vec<u8>`, the bytes of a `String`) are `List Nat`
  with each element a byte value; machine integers are `Nat`/`Int` with
  explicit wrap-around (`% 2^64`) where the source casts.
* Rust `String` payloads that flow through the protocol are modelled as
  byte lists.  `read_line` / `from_utf8` UTF-8 validity checks are not
  modelled; every theorem that quantifies over string content restricts
  it to ASCII bytes (< 128), for which UTF-8 validity is automatic and
  for which `char`-based operations (`chars().next()`, `trim_end`,
  `to_lowercase`) coincide with the byte-level operations used here.
* Asynchronous I/O (`BufReader`) is modelled by explicit input lists:
  a parser consumes a prefix of its input list and returns the rest;
  `read_exact` failure (EOF) is the `io` error.
* The parser's recursion over arrays is driven by a fuel parameter; the
  `fuelExhausted` error is a modelling artefact that never occurs when
  the fuel exceeds the input length (the top-level `parse` supplies
  `input.length + 1` fuel, and every proof discharges the fuel case).
-/

namespace Rudis

/-- Bytes of an ASCII string literal (each `Char` is one byte for ASCII content). -/
def asciiBytes (s : String) : List Nat := s.data.map Char.toNat

/-- Rust `char::is_whitespace` restricted to single-byte (ASCII) characters:
tab, LF, vertical tab, form feed, CR, space. -/
def isWsByte (b : Nat) : Bool := b == 9 || b == 10 || b == 11 || b == 12 || b == 13 || b == 32

/-- ASCII decimal digit test, as in Rust's integer parsing. -/
def isDigit (b : Nat) : Bool := 48 ≤ b && b ≤ 57

/-- Rust `str::to_lowercase` on an ASCII byte. -/
def asciiLower (b : Nat) : Nat := if 65 ≤ b ∧ b ≤ 90 then b + 32 else b

/-- Rust `str::to_uppercase` on an ASCII byte. -/
def asciiUpper (b : Nat) : Nat := if 97 ≤ b ∧ b ≤ 122 then b - 32 else b

/-- Fuel-driven digit expansion; `natDigits` supplies enough fuel for any `n`. -/
def natDigitsAux : Nat → Nat → List Nat
  | 0, _ => []
  | fuel + 1, n => if n < 10 then [48 + n] else natDigitsAux fuel (n / 10) ++ [48 + n % 10]

/-- Decimal digits of `n`, most significant first, as produced by Rust's `format!("{}")`. -/
def natDigits (n : Nat) : List Nat := natDigitsAux (n + 1) n

/-- Value of a digit string (most significant first). -/
def digitsVal (l : List Nat) : Nat := l.foldl (fun acc b => acc * 10 + (b - 48)) 0

/-- Parse a non-empty all-digit byte string to its value; `none` otherwise. -/
def decDigits? (l : List Nat) : Option Nat :=
  if l ≠ [] ∧ l.all isDigit then some (digitsVal l) else none

/-- Largest `i64` value. -/
def i64Max : Int := 2 ^ 63 - 1

/-- Rust `str::parse::<i64>()` (also `isize` on the 64-bit target): optional sign,
one or more decimal digits, value within the `i64` range; anything else fails. -/
def parseI64 (l : List Nat) : Option Int :=
  match l with
  | [] => none
  | b :: ds =>
    if b = 43 then
      (decDigits? ds).bind fun n => if (n : Int) ≤ i64Max then some (n : Int) else none
    else if b = 45 then
      (decDigits? ds).bind fun n => if (n : Int) ≤ 2 ^ 63 then some (-(n : Int)) else none
    else
      (decDigits? (b :: ds)).bind fun n => if (n : Int) ≤ i64Max then some (n : Int) else none

/-- Rust `format!("{}", i)` for an `i64`. -/
def intToDecimal (i : Int) : List Nat :=
  if i < 0 then 45 :: natDigits (-i).toNat else natDigits i.toNat

/-- Rust `as usize` cast of a 64-bit signed value (two's-complement wrap). -/
def usizeCast (i : Int) : Nat := (i % (2 ^ 64 : Int)).toNat

/-- `BufReader::read_line`: take bytes up to and including the first LF
(the whole input at EOF); returns the line and the remaining input. -/
def readLine : List Nat → List Nat × List Nat
  | [] => ([], [])
  | b :: rest =>
    if b = 10 then ([10], rest)
    else
      let (l, r) := readLine rest
      (b :: l, r)

/-- Rust `str::trim_end` (ASCII whitespace; see `isWsByte`). -/
def trimEnd (l : List Nat) : List Nat := (l.reverse.dropWhile isWsByte).reverse

/-- `Frame` from `src/protocol.rs`: the wire-protocol value. -/
inductive Frame where
  | simpleString (s : List Nat)
  | error (msg : List Nat)
  | integer (i : Int)
  | bulkString (data : Option (List Nat))
  | array (items : Option (List Frame))
  | null
  | boolean (b : Bool)
  | exit

/-- `FrameError` from `src/protocol.rs` (the variants the embedded code can produce;
`fuelExhausted` is the fuel-model artefact, see the file header). -/
inductive FrameError where
  | invalidFormat (msg : String)
  | unsupportedType (lead : Nat)
  | incompleteData (expected actual : Nat)
  | valueTooLong (length max : Nat)
  | parseIntError
  | io
  | fuelExhausted
deriving DecidableEq

mutual

/-- `Frame::write_to` from `src/protocol.rs`, as the byte list written.
Note the source writes the elements of `Array(Some(_))` with **no** `*N` header,
writes `BulkString(None)` as `$0\r\n\r\n`, and sends `Array(None)` to the
wildcard arm which writes `-err\r\n`. -/
def writeFrame : Frame → List Nat
  | .simpleString s => 43 :: (s ++ [13, 10])
  | .error msg => 45 :: (msg ++ [13, 10])
  | .integer i => 58 :: (intToDecimal i ++ [13, 10])
  | .bulkString (some data) => (36 :: (natDigits data.length ++ [13, 10])) ++ data ++ [13, 10]
  | .bulkString none => [36, 48, 13, 10, 13, 10]
  | .array (some items) => writeFrames items
  | .null => [95, 13, 10]
  | .boolean true => [35, 116, 13, 10]
  | .boolean false => [35, 102, 13, 10]
  | .exit => [98, 121, 101, 13, 10]
  | .array none => [45, 101, 114, 114, 13, 10]

/-- Concatenated serialization of a frame list (the `Array(Some)` loop body). -/
def writeFrames : List Frame → List Nat
  | [] => []
  | f :: rest => writeFrame f ++ writeFrames rest

end

/-- The `for _ in 0..count` loop of the `*` branch: parse `count` sub-frames in
sequence with the given sub-parser (a negative `count` other than `-1` yields an
empty range in the source, hence `Int.toNat` at the call site). -/
def parseItems (p : List Nat → Except FrameError (Frame × List Nat)) :
    Nat → List Nat → Except FrameError (List Frame × List Nat)
  | 0, input => .ok ([], input)
  | k + 1, input =>
    match p input with
    | .error e => .error e
    | .ok (v, rest) =>
      match parseItems p k rest with
      | .error e => .error e
      | .ok (vs, rest2) => .ok (v :: vs, rest2)

/-- The body of `parse` from `src/protocol.rs` after `read_line`: given the line
just read and the remaining input, dispatch on the lead byte.  An empty line is a
format error; a line longer than the configured maximum
(`get_server_config().string_max_length`, here `maxLen`) is `ValueTooLong`;
then the lead byte selects `+` `-` `:` `$` `*`, anything else unsupported.
`sub` is the recursive parser used for array elements. -/
def parseHead (maxLen : Nat) (sub : List Nat → Except FrameError (Frame × List Nat)) :
    List Nat → List Nat → Except FrameError (Frame × List Nat)
  | [], _ => .error (.invalidFormat "Empty input")
  | lead :: contentRaw, rest =>
    let lineLen := contentRaw.length + 1
    if maxLen < lineLen then .error (.valueTooLong lineLen maxLen)
    else
      let content := trimEnd contentRaw
      if lead = 43 then .ok (.simpleString content, rest)
      else if lead = 45 then .ok (.error content, rest)
      else if lead = 58 then
        match parseI64 content with
        | some i => .ok (.integer i, rest)
        | none => .error .parseIntError
      else if lead = 36 then
        match parseI64 content with
        | none => .error .parseIntError
        | some len =>
          if len = -1 then .ok (.bulkString none, rest)
          else
            let n := usizeCast len
            if rest.length < n then .error .io
            else
              let data := rest.take n
              let rest2 := rest.drop n
              if rest2.length < 2 then .error .io
              else .ok (.bulkString (some data), rest2.drop 2)
      else if lead = 42 then
        match parseI64 content with
        | none => .error .parseIntError
        | some count =>
          if count = -1 then .ok (.array none, rest)
          else
            match parseItems sub count.toNat rest with
            | .error e => .error e
            | .ok (items, rest2) => .ok (.array (some items), rest2)
      else .error (.unsupportedType lead)

/-- `parse` from `src/protocol.rs`, fuel-indexed: read one CRLF line, then
dispatch via `parseHead`, recursing with one unit of fuel less. -/
def parseF (maxLen : Nat) : Nat → List Nat → Except FrameError (Frame × List Nat)
  | 0, _ => .error .fuelExhausted
  | fuel + 1, input =>
    match readLine input with
    | (line, rest) => parseHead maxLen (parseF maxLen fuel) line rest

/-- Top-level `parse`, with enough fuel for any input of this length. -/
def parse (maxLen : Nat) (input : List Nat) : Except FrameError (Frame × List Nat) :=
  parseF maxLen (input.length + 1) input

/-- Default `string_max_length` from `src/config.rs`: `2 << 25`. -/
def defaultStringMaxLength : Nat := 67108864

/-! ### Arithmetic and list lemmas about the wire-format helpers -/

theorem digitsVal_append_single (l : List Nat) (b : Nat) :
    digitsVal (l ++ [b]) = digitsVal l * 10 + (b - 48) := by
  unfold digitsVal
  rw [List.foldl_append]
  rfl

theorem isDigit_iff {b : Nat} : isDigit b = true ↔ 48 ≤ b ∧ b ≤ 57 := by
  simp [isDigit]

theorem isWsByte_iff {b : Nat} :
    isWsByte b = true ↔ b = 9 ∨ b = 10 ∨ b = 11 ∨ b = 12 ∨ b = 13 ∨ b = 32 := by
  simp [isWsByte]
  tauto

theorem isWsByte_eq_false {b : Nat}
    (h : b ≠ 9 ∧ b ≠ 10 ∧ b ≠ 11 ∧ b ≠ 12 ∧ b ≠ 13 ∧ b ≠ 32) : isWsByte b = false := by
  rw [Bool.eq_false_iff]
  intro hc
  rcases isWsByte_iff.mp hc with h' | h' | h' | h' | h' | h' <;> omega

theorem natDigitsAux_spec : ∀ fuel n, n < fuel →
    natDigitsAux fuel n ≠ [] ∧ (∀ b ∈ natDigitsAux fuel n, isDigit b = true) ∧
      digitsVal (natDigitsAux fuel n) = n := by
  intro fuel
  induction fuel with
  | zero => omega
  | succ f ih =>
    intro n hn
    unfold natDigitsAux
    by_cases h10 : n < 10
    · rw [if_pos h10]
      refine ⟨by simp, ?_, ?_⟩
      · intro b hb
        rw [List.mem_singleton] at hb
        rw [hb, isDigit_iff]
        omega
      · show List.foldl _ 0 [48 + n] = n
        rw [List.foldl_cons, List.foldl_nil]
        omega
    · have hrec : n / 10 < f := by omega
      obtain ⟨hne, hdig, hval⟩ := ih (n / 10) hrec
      rw [if_neg h10]
      refine ⟨by simp [hne], ?_, ?_⟩
      · intro b hb
        rcases List.mem_append.mp hb with hb | hb
        · exact hdig b hb
        · rw [List.mem_singleton] at hb
          rw [hb, isDigit_iff]
          omega
      · rw [digitsVal_append_single, hval]
        omega

theorem natDigits_spec (n : Nat) :
    natDigits n ≠ [] ∧ (∀ b ∈ natDigits n, isDigit b = true) ∧ digitsVal (natDigits n) = n :=
  natDigitsAux_spec (n + 1) n (by omega)

theorem decDigits?_natDigits (n : Nat) : decDigits? (natDigits n) = some n := by
  obtain ⟨hne, hdig, hval⟩ := natDigits_spec n
  unfold decDigits?
  rw [if_pos ⟨hne, List.all_eq_true.mpr hdig⟩, hval]

theorem isDigit_not_ws {b : Nat} (h : isDigit b = true) : isWsByte b = false := by
  rw [isDigit_iff] at h
  exact isWsByte_eq_false (by omega)

theorem isDigit_ne_lf {b : Nat} (h : isDigit b = true) : b ≠ 10 := by
  rw [isDigit_iff] at h
  omega

theorem getLastD_mem_of_ne_nil : ∀ (l : List Nat), l ≠ [] → l.getLastD 0 ∈ l := by
  intro l
  induction l with
  | nil => simp
  | cons b t ih =>
    intro _
    cases ht : t with
    | nil => simp [ht]
    | cons c u =>
      have hmem := ih (by simp [ht])
      rw [ht] at hmem
      have heq : (b :: c :: u).getLastD 0 = (c :: u).getLastD 0 := by
        simp [List.getLastD]
      rw [heq]
      exact List.mem_cons_of_mem b hmem

theorem parseI64_cons_digit {b : Nat} {t : List Nat} (hb : isDigit b = true) :
    parseI64 (b :: t) =
      (decDigits? (b :: t)).bind fun n => if (n : Int) ≤ i64Max then some (n : Int) else none := by
  rw [isDigit_iff] at hb
  simp only [parseI64]
  rw [if_neg (by omega), if_neg (by omega)]

theorem parseI64_natDigits (n : Nat) (hn : (n : Int) ≤ i64Max) :
    parseI64 (natDigits n) = some (n : Int) := by
  obtain ⟨hne, hdig, _⟩ := natDigits_spec n
  cases hd : natDigits n with
  | nil => exact absurd hd hne
  | cons b t =>
    have hb : isDigit b = true := hdig b (by rw [hd]; exact List.mem_cons_self b t)
    rw [parseI64_cons_digit hb, ← hd, decDigits?_natDigits, Option.some_bind, if_pos hn]

theorem parseI64_intToDecimal (i : Int) (h1 : -(2 ^ 63) ≤ i) (h2 : i ≤ i64Max) :
    parseI64 (intToDecimal i) = some i := by
  unfold intToDecimal
  by_cases hneg : i < 0
  · rw [if_pos hneg]
    have hcast : ((-i).toNat : Int) = -i := Int.toNat_of_nonneg (by omega)
    have hle : ((-i).toNat : Int) ≤ 2 ^ 63 := by omega
    have h45 : parseI64 (45 :: natDigits (-i).toNat) =
        (decDigits? (natDigits (-i).toNat)).bind
          fun n => if (n : Int) ≤ 2 ^ 63 then some (-(n : Int)) else none := rfl
    rw [h45, decDigits?_natDigits, Option.some_bind, if_pos hle, hcast]
    simp
  · rw [if_neg hneg]
    have hcast : ((i.toNat : Nat) : Int) = i := Int.toNat_of_nonneg (by omega)
    rw [parseI64_natDigits _ (by omega), hcast]

theorem intToDecimal_ne_nil (i : Int) : intToDecimal i ≠ [] := by
  unfold intToDecimal
  obtain ⟨hne, _, _⟩ := natDigits_spec i.toNat
  obtain ⟨hne', _, _⟩ := natDigits_spec (-i).toNat
  by_cases hneg : i < 0 <;> simp [hneg, hne, hne']

theorem intToDecimal_no_lf (i : Int) : ∀ b ∈ intToDecimal i, b ≠ 10 := by
  intro b hb
  unfold intToDecimal at hb
  obtain ⟨_, hdig, _⟩ := natDigits_spec i.toNat
  obtain ⟨_, hdig', _⟩ := natDigits_spec (-i).toNat
  by_cases hneg : i < 0
  · rw [if_pos hneg] at hb
    rcases List.mem_cons.mp hb with hb | hb
    · subst hb
      omega
    · exact isDigit_ne_lf (hdig' b hb)
  · rw [if_neg hneg] at hb
    exact isDigit_ne_lf (hdig b hb)

theorem intToDecimal_last_not_ws (i : Int) : isWsByte ((intToDecimal i).getLastD 0) = false := by
  unfold intToDecimal
  obtain ⟨hne, hdig, _⟩ := natDigits_spec i.toNat
  obtain ⟨hne', hdig', _⟩ := natDigits_spec (-i).toNat
  by_cases hneg : i < 0
  · rw [if_pos hneg]
    cases hd : natDigits (-i).toNat with
    | nil => exact absurd hd hne'
    | cons c u =>
      have : (45 :: c :: u).getLastD 0 = (c :: u).getLastD 0 := by simp
      rw [this, ← hd]
      refine isDigit_not_ws (hdig' _ ?_)
      rw [hd]
      exact getLastD_mem_of_ne_nil _ (by simp)
  · rw [if_neg hneg]
    refine isDigit_not_ws (hdig _ (getLastD_mem_of_ne_nil _ hne))

theorem natDigits_last_not_ws (n : Nat) : isWsByte ((natDigits n).getLastD 0) = false := by
  obtain ⟨hne, hdig, _⟩ := natDigits_spec n
  exact isDigit_not_ws (hdig _ (getLastD_mem_of_ne_nil _ hne))

theorem readLine_append (pre rest : List Nat) (h : ∀ b ∈ pre, b ≠ 10) :
    readLine (pre ++ 10 :: rest) = (pre ++ [10], rest) := by
  induction pre with
  | nil => simp [readLine]
  | cons b t ih =>
    have hb : ¬ b = 10 := h b (by simp)
    simp only [List.cons_append, readLine, if_neg hb, List.append_eq]
    rw [ih (fun x hx => h x (by simp [hx]))]

theorem dropWhile_eq_self_of_head (l : List Nat) (h : isWsByte (l.getLastD 0) = false) :
    l.reverse.dropWhile isWsByte = l.reverse := by
  cases hl : l.reverse with
  | nil => simp
  | cons b t =>
    have hb : l.getLastD 0 = b := by
      have hrev : l = (b :: t).reverse := by rw [← hl, List.reverse_reverse]
      rw [hrev]
      simp [List.getLastD_concat]
    rw [List.dropWhile_cons, ← hb, h]
    simp

theorem trimEnd_append_crlf (s : List Nat) (h : isWsByte (s.getLastD 0) = false) :
    trimEnd (s ++ [13, 10]) = s := by
  unfold trimEnd
  have h1 : (s ++ [13, 10]).reverse = 10 :: 13 :: s.reverse := by simp
  rw [h1, List.dropWhile_cons, List.dropWhile_cons]
  norm_num [isWsByte]
  rw [dropWhile_eq_self_of_head s h, List.reverse_reverse]

theorem usizeCast_natCast (n : Nat) (h : (n : Int) < 2 ^ 64) : usizeCast (n : Int) = n := by
  unfold usizeCast
  rw [Int.emod_eq_of_lt (by omega) h]
  simp

/-! ### Round-trip of serialization and parsing (claim C1) -/

/-- The frames for which serialize-then-parse returns the frame itself: simple
strings and errors whose payload is ASCII, contains no LF, has no trailing
whitespace, and fits the line-length limit; integers in the `i64` range whose line fits;
and non-null bulk strings whose length fits in `i64` and whose header line fits.
Booleans, arrays, nulls and the close marker do not round-trip (see the
counterexample). -/
def canRoundtrip (maxLen : Nat) : Frame → Bool
  | .simpleString s =>
      s.all (fun b => decide (b < 128) && b != 10) && !isWsByte (s.getLastD 0) &&
        decide (s.length + 3 ≤ maxLen)
  | .error msg =>
      msg.all (fun b => decide (b < 128) && b != 10) && !isWsByte (msg.getLastD 0) &&
        decide (msg.length + 3 ≤ maxLen)
  | .integer i =>
      decide (-(2 ^ 63) ≤ i) && decide (i ≤ i64Max) &&
        decide ((intToDecimal i).length + 3 ≤ maxLen)
  | .bulkString (some data) =>
      decide ((data.length : Int) ≤ i64Max) &&
        decide ((natDigits data.length).length + 3 ≤ maxLen)
  | _ => false

theorem readLine_line (lead : Nat) (content rest : List Nat) (hlead : lead ≠ 10)
    (hnolf : ∀ b ∈ content, b ≠ 10) :
    readLine ((lead :: (content ++ [13, 10])) ++ rest) = (lead :: (content ++ [13, 10]), rest) := by
  have h1 : (lead :: (content ++ [13, 10])) ++ rest = (lead :: (content ++ [13])) ++ 10 :: rest := by
    simp
  have h2 : ∀ b ∈ lead :: (content ++ [13]), b ≠ 10 := by
    intro b hb
    rcases List.mem_cons.mp hb with hb | hb
    · subst hb
      exact hlead
    · rcases List.mem_append.mp hb with hb | hb
      · exact hnolf b hb
      · rw [List.mem_singleton] at hb
        omega
  rw [h1, readLine_append _ _ h2]
  simp

theorem parseF_succ_eq (maxLen fuel : Nat) (input line rest : List Nat)
    (h : readLine input = (line, rest)) :
    parseF maxLen (fuel + 1) input = parseHead maxLen (parseF maxLen fuel) line rest := by
  simp only [parseF, h]

theorem parseF_writeFrame_flat (maxLen fuel : Nat) (V : Frame)
    (h : canRoundtrip maxLen V = true) (rest : List Nat) :
    parseF maxLen (fuel + 1) (writeFrame V ++ rest) = .ok (V, rest) := by
  cases V with
  | simpleString s =>
    simp only [canRoundtrip, Bool.and_eq_true, List.all_eq_true, Bool.not_eq_true',
      decide_eq_true_eq, bne_iff_ne, ne_eq] at h
    obtain ⟨⟨hs, hlast⟩, hlen⟩ := h
    have hnolf : ∀ b ∈ s, b ≠ 10 := fun b hb => (hs b hb).2
    have hr : readLine (writeFrame (Frame.simpleString s) ++ rest) =
        (43 :: (s ++ [13, 10]), rest) := readLine_line 43 s rest (by omega) hnolf
    rw [parseF_succ_eq maxLen fuel _ _ _ hr]
    simp only [parseHead]
    rw [if_neg (by simp; omega), trimEnd_append_crlf s hlast, if_pos trivial]
  | error msg =>
    simp only [canRoundtrip, Bool.and_eq_true, List.all_eq_true, Bool.not_eq_true',
      decide_eq_true_eq, bne_iff_ne, ne_eq] at h
    obtain ⟨⟨hs, hlast⟩, hlen⟩ := h
    have hnolf : ∀ b ∈ msg, b ≠ 10 := fun b hb => (hs b hb).2
    have hr : readLine (writeFrame (Frame.error msg) ++ rest) =
        (45 :: (msg ++ [13, 10]), rest) := readLine_line 45 msg rest (by omega) hnolf
    rw [parseF_succ_eq maxLen fuel _ _ _ hr]
    simp only [parseHead]
    rw [if_neg (by simp; omega), trimEnd_append_crlf msg hlast, if_pos trivial]
    simp
  | integer i =>
    simp only [canRoundtrip, Bool.and_eq_true, decide_eq_true_eq] at h
    obtain ⟨⟨hlo, hhi⟩, hlen⟩ := h
    have hr : readLine (writeFrame (Frame.integer i) ++ rest) =
        (58 :: (intToDecimal i ++ [13, 10]), rest) :=
      readLine_line 58 _ rest (by omega) (intToDecimal_no_lf i)
    rw [parseF_succ_eq maxLen fuel _ _ _ hr]
    simp only [parseHead]
    rw [if_neg (by simp; omega), trimEnd_append_crlf _ (intToDecimal_last_not_ws i)]
    rw [if_pos trivial]
    simp only [parseI64_intToDecimal i hlo hhi]
    simp
  | bulkString data =>
    cases data with
    | none => simp [canRoundtrip] at h
    | some data =>
      simp only [canRoundtrip, Bool.and_eq_true, decide_eq_true_eq] at h
      obtain ⟨hfit, hlen⟩ := h
      have hfit' : (data.length : Int) ≤ 2 ^ 63 - 1 := by
        rw [i64Max] at hfit
        exact hfit
      obtain ⟨hne, hdig, _⟩ := natDigits_spec data.length
      have hnolf : ∀ b ∈ natDigits data.length, b ≠ 10 := fun b hb => isDigit_ne_lf (hdig b hb)
      have hshape : writeFrame (Frame.bulkString (some data)) ++ rest =
          (36 :: (natDigits data.length ++ [13, 10])) ++ (data ++ ([13, 10] ++ rest)) := by
        simp [writeFrame]
      have hr : readLine (writeFrame (Frame.bulkString (some data)) ++ rest) =
          (36 :: (natDigits data.length ++ [13, 10]), data ++ ([13, 10] ++ rest)) := by
        rw [hshape]
        exact readLine_line 36 _ _ (by omega) hnolf
      rw [parseF_succ_eq maxLen fuel _ _ _ hr]
      simp only [parseHead]
      rw [if_neg (by simp; omega), trimEnd_append_crlf _ (natDigits_last_not_ws data.length)]
      rw [if_pos trivial]
      simp only [parseI64_natDigits data.length hfit]
      rw [usizeCast_natCast data.length (by omega)]
      rw [List.take_left, List.drop_left]
      rw [if_neg (show ¬((data.length : Int) = -1) by omega)]
      simp
  | array items =>
    cases items with
    | none => simp [canRoundtrip] at h
    | some items => simp [canRoundtrip] at h
  | null => simp [canRoundtrip] at h
  | boolean b => simp [canRoundtrip] at h
  | exit => simp [canRoundtrip] at h

end Rudis

namespace Rudis

/-- **C1 (amended).**  Serializing a frame with `writeFrame` and parsing the bytes
back returns the frame: this holds for simple strings, errors, integers and
non-null bulk strings subject to `canRoundtrip` (ASCII / no-LF / no trailing
whitespace payloads, `i64`-range numbers, lines within the configured maximum).
It does **not** hold for booleans (the parser has no `#` branch) or arrays (the
serializer omits the `*N` header); see the counterexample. -/
theorem c1_roundtrip_flat (maxLen : Nat) (V : Frame) (h : canRoundtrip maxLen V = true) :
    parse maxLen (writeFrame V) = .ok (V, []) := by
  unfold parse
  have hflat := parseF_writeFrame_flat maxLen (writeFrame V).length V h []
  rw [List.append_nil] at hflat
  exact hflat

/-- Witness for C1's amended theorem at a concrete frame: the bulk string `"hi"`
round-trips under the default configured maximum. -/
theorem c1_roundtrip_flat_witness :
    canRoundtrip defaultStringMaxLength (Frame.bulkString (some [104, 105])) = true ∧
      parse defaultStringMaxLength (writeFrame (Frame.bulkString (some [104, 105]))) =
        .ok (Frame.bulkString (some [104, 105]), []) :=
  ⟨rfl, c1_roundtrip_flat defaultStringMaxLength (Frame.bulkString (some [104, 105])) rfl⟩

/-- **C1 (counterexample).**  `parse (serialize V) = V` fails for constructible
non-null frames of the listed types: a boolean serializes to `#t\r\n`, which the
parser rejects as an unsupported lead byte, and an array serializes without its
`*N` header, so parsing returns only the first element. -/
theorem c1_counterexample :
    parse defaultStringMaxLength (writeFrame (Frame.boolean true)) =
        .error (.unsupportedType 35) ∧
      parse defaultStringMaxLength (writeFrame (Frame.array (some [Frame.integer 7, Frame.integer 8]))) =
        .ok (Frame.integer 7, [58, 56, 13, 10]) :=
  ⟨rfl, rfl⟩

end Rudis

namespace Rudis

/-- **C4 (amended).**  The oversize check in `parse` applies to each
CRLF-terminated line as read: if the line just read is non-empty and longer than
the configured maximum, `parse` fails with `ValueTooLong` before dispatching on
the lead byte.  (The declared length of a bulk string is never compared against
the maximum; see the counterexample.) -/
theorem c4_line_length_check (maxLen : Nat) (input line rest : List Nat)
    (h : readLine input = (line, rest)) (hne : line ≠ []) (hlong : maxLen < line.length) :
    parse maxLen input = .error (.valueTooLong line.length maxLen) := by
  unfold parse
  rw [parseF_succ_eq maxLen input.length _ _ _ h]
  cases line with
  | nil => exact absurd rfl hne
  | cons lead contentRaw =>
    simp only [parseHead]
    rw [List.length_cons] at hlong ⊢
    rw [if_pos hlong]

/-- Witness for C4's amended theorem: with maximum 3, the 7-byte line
`+abcd\r\n` is rejected as `ValueTooLong` up front. -/
theorem c4_line_length_check_witness :
    readLine (asciiBytes "+abcd\r\n") = (asciiBytes "+abcd\r\n", []) ∧
      parse 3 (asciiBytes "+abcd\r\n") = .error (.valueTooLong 7 3) :=
  ⟨rfl, c4_line_length_check 3 (asciiBytes "+abcd\r\n") (asciiBytes "+abcd\r\n") [] rfl
    (by simp [asciiBytes]) (by simp [asciiBytes])⟩

/-- **C4 (counterexample).**  A declared bulk-string length exceeding the
configured maximum does **not** raise an oversize error before the payload is
read: with maximum 10, the frame `$11\r\n` + 11 payload bytes parses
successfully — the whole payload is read and returned, and no `ValueTooLong`
error occurs. -/
theorem c4_counterexample :
    10 < 11 ∧
      parse 10 (writeFrame (Frame.bulkString (some (List.replicate 11 97)))) =
        .ok (Frame.bulkString (some (List.replicate 11 97)), []) :=
  ⟨by omega, rfl⟩

end Rudis

namespace Rudis

/-- `CommandError` from `src/command/error.rs`.  Messages built from request
bytes are byte lists (`asciiBytes` of the source's literals). -/
inductive CommandError where
  | invalidCommand (msg : List Nat)
  | invalidCommandFormat (msg : List Nat)
  | invalidArgumentNumber (cmd : List Nat) (n : Nat)
  | invalidArgumentFormat (cmd : List Nat)
  | wrongType
  | superHugeString (len : Nat) (key : List Nat)
  | utf8Error
  | fromUtf8Error
  | parseIntError
deriving DecidableEq

/-- `Parser` from `src/command/parser.rs`: the lower-cased command name, the
frame parts of the request array, and the forward cursor. -/
structure Parser where
  cmd : List Nat
  parts : List Frame
  cursor : Nat

/-- `Parser::new` from `src/command/parser.rs`: accept a non-null, non-empty
array whose first element is a simple string or non-null bulk string; store the
lower-cased name as `cmd`, keep **all** the parts and set the cursor to `0`
(the first element is *not* skipped).  UTF-8 decoding of the name is elided
(ASCII modelling, see the file header). -/
def Parser.new (frame : Frame) : Except CommandError Parser :=
  match frame with
  | .array (some (hd :: tl)) =>
    match hd with
    | .simpleString s => .ok ⟨s.map asciiLower, hd :: tl, 0⟩
    | .bulkString (some data) => .ok ⟨data.map asciiLower, hd :: tl, 0⟩
    | _ => .error .wrongType
  | .array (some []) => .error (.invalidCommandFormat (asciiBytes "Empty command array"))
  | _ => .error .wrongType

/-- `Parser::len`: the length of the stored parts list (including the command
name at index 0). -/
def Parser.len (p : Parser) : Nat := p.parts.length

/-- `Parser::has_next`. -/
def Parser.hasNext (p : Parser) : Bool := decide (p.cursor < p.parts.length)

/-- The typed argument shapes convertible from a `Frame`
(the `TryFrom<Frame>` impls in `src/command/parser.rs`). -/
inductive ArgTy where
  | tstr
  | tint
  | tbytes
  | tbool
deriving DecidableEq

/-- A converted argument value. -/
inductive Val where
  | vstr (s : List Nat)
  | vint (i : Int)
  | vbytes (b : List Nat)
  | vbool (b : Bool)
deriving DecidableEq

/-- The `TryFrom<Frame>` conversions from `src/command/parser.rs`:
`String` from simple string or (UTF-8, here ASCII-modelled) bulk string;
`i64` from a wire integer or a parsed bulk string; `Vec<u8>` from a bulk
string; `bool` from integer 0/1 or case-insensitive TRUE/FALSE simple string;
anything else is `WrongType`. -/
def tryFromFrame : ArgTy → Frame → Except CommandError Val
  | .tstr, .simpleString s => .ok (.vstr s)
  | .tstr, .bulkString (some bytes) => .ok (.vstr bytes)
  | .tstr, _ => .error .wrongType
  | .tint, .integer num => .ok (.vint num)
  | .tint, .bulkString (some bytes) =>
    match parseI64 bytes with
    | some n => .ok (.vint n)
    | none => .error .parseIntError
  | .tint, _ => .error .wrongType
  | .tbytes, .bulkString (some bytes) => .ok (.vbytes bytes)
  | .tbytes, _ => .error .wrongType
  | .tbool, .integer num =>
    if num = 0 then .ok (.vbool false)
    else if num = 1 then .ok (.vbool true)
    else .error .wrongType
  | .tbool, .simpleString s =>
    if s.map asciiUpper = asciiBytes "TRUE" then .ok (.vbool true)
    else if s.map asciiUpper = asciiBytes "FALSE" then .ok (.vbool false)
    else .error .wrongType
  | .tbool, _ => .error .wrongType

/-- `Parser::next` from `src/command/parser.rs`: if the cursor is exhausted,
fail with `InvalidArgumentNumber(cmd, cursor)`; otherwise convert the part at
the cursor and advance. -/
def Parser.next (ty : ArgTy) (p : Parser) : Except CommandError (Val × Parser) :=
  if h : p.cursor < p.parts.length then
    match tryFromFrame ty (p.parts.get ⟨p.cursor, h⟩) with
    | .ok v => .ok (v, { p with cursor := p.cursor + 1 })
    | .error e => .error e
  else .error (.invalidArgumentNumber p.cmd p.cursor)

/-- The positional-field statements generated by `generate_from_parse_impl`
(`src/rudis-macros/src/command_handler.rs`): one `parser.next()?` per
non-optional field, in declaration order. -/
def parsePositional : List ArgTy → Parser → Except CommandError (List Val × Parser)
  | [], p => .ok ([], p)
  | ty :: tys, p =>
    match Parser.next ty p with
    | .error e => .error e
    | .ok (v, p2) =>
      match parsePositional tys p2 with
      | .error e => .error e
      | .ok (vs, p3) => .ok (v :: vs, p3)

/-- The trailing option loop generated by `generate_from_parse_impl` for a
command with no pair or flag fields: while the parser has more tokens, read one
as a `String` and hit the default match arm, failing with "Unknown option"
(the token upper-cased).  The `.wrongType` fallback arm is unreachable:
`next .tstr` only succeeds with a `.vstr`. -/
def optionLoopEmpty (p : Parser) : Except CommandError Parser :=
  if p.cursor < p.parts.length then
    match Parser.next .tstr p with
    | .error e => .error e
    | .ok (.vstr k, _) =>
      .error (.invalidCommandFormat (asciiBytes "Unknown option " ++ k.map asciiUpper))
    | .ok _ => .error .wrongType
  else .ok p

/-- The full `TryFrom<Parser>` impl generated by `generate_from_parse_impl` for
a command struct whose fields are all required positionals: an up-front count
check `parser.len() < required` yielding `InvalidArgumentNumber(name, required)`,
then the positional `next()?` statements, then the option loop. -/
def generatedTryFrom (commandName : List Nat) (fieldTys : List ArgTy) (p : Parser) :
    Except CommandError (List Val) :=
  if p.len < fieldTys.length then
    .error (.invalidArgumentNumber commandName fieldTys.length)
  else
    match parsePositional fieldTys p with
    | .error e => .error e
    | .ok (vs, p2) =>
      match optionLoopEmpty p2 with
      | .error e => .error e
      | .ok _ => .ok vs

end Rudis

namespace Rudis

/-- The request parts of the failing input for C2: `[bulk "GET", bulk "k"]`. -/
def getkParts : List Frame :=
  [.bulkString (some (asciiBytes "GET")), .bulkString (some (asciiBytes "k"))]

/-- **C2.**  Evaluation of `Parser` at the failing input
`Array [bulk "GET", bulk "k"]`: construction succeeds with cursor `0` and all
parts retained, `len()` reports `2` (it counts the command name, not only the
elements after it), and the **first** `next()` returns the command name
`"GET"` itself, not the second array element `"k"` — contradicting the claimed
contract that the name is consumed and only the remaining elements are
addressable. -/
theorem c2_parser_first_next_is_command_name :
    Parser.new (.array (some getkParts)) = .ok ⟨asciiBytes "get", getkParts, 0⟩ ∧
      Parser.len ⟨asciiBytes "get", getkParts, 0⟩ = 2 ∧
      Parser.next .tstr ⟨asciiBytes "get", getkParts, 0⟩ =
        .ok (.vstr (asciiBytes "GET"), ⟨asciiBytes "get", getkParts, 1⟩) ∧
      asciiBytes "GET" ≠ asciiBytes "k" :=
  ⟨rfl, rfl, rfl, by simp [asciiBytes]⟩

/-- The request parts of the failing input for C6:
`[bulk "GETRANGE", bulk "k", bulk "5"]` — two supplied arguments for a command
with three required fields (`key : String`, `start : i64`, `end : i64`). -/
def grParts : List Frame :=
  [.bulkString (some (asciiBytes "GETRANGE")), .bulkString (some (asciiBytes "k")),
    .bulkString (some (asciiBytes "5"))]

/-- **C6.**  Evaluation of the generated argument parsing at the failing input:
only 2 arguments are supplied for 3 required fields, yet the up-front count
check passes (`parser.len()` counts the command name: 3 < 3 is false) and
parsing fails **later** with `ParseIntError` — converting the token `"k"` to
`i64` — not with the up-front `InvalidArgumentNumber` count error the claim
requires. -/
theorem c6_too_few_args_not_count_error :
    Parser.new (.array (some grParts)) = .ok ⟨asciiBytes "getrange", grParts, 0⟩ ∧
      grParts.length = 3 ∧
      generatedTryFrom (asciiBytes "getrange") [.tstr, .tint, .tint]
          ⟨asciiBytes "getrange", grParts, 0⟩ =
        .error .parseIntError ∧
      CommandError.parseIntError ≠
        .invalidArgumentNumber (asciiBytes "getrange") 3 :=
  ⟨rfl, rfl, rfl, by simp⟩

end Rudis

namespace Rudis

/-- `RespValue` from `src/resp.rs` (the duplicate of `Frame` used by the
command implementations). -/
inductive RespValue where
  | simpleString (s : List Nat)
  | error (msg : List Nat)
  | integer (i : Int)
  | bulkString (data : Option (List Nat))
  | array (items : Option (List RespValue))
  | null
  | boolean (b : Bool)
  | exit

/-- `EMB_LEN` from `src/storage/object/encoding/sds.rs`. -/
def EMB_LEN : Nat := 54

/-- `EmbStr` from `src/storage/object/encoding/sds.rs`: explicit length plus a
fixed 54-byte buffer (here a list that the constructor always fills to 54). -/
structure EmbStr where
  len : Nat
  buf : List Nat
deriving DecidableEq

/-- `impl From<Vec<u8>> for EmbStr`: copy at most `EMB_LEN` bytes into a
zero-initialised buffer and record the copied length. -/
def EmbStr.ofBytes (value : List Nat) : EmbStr :=
  let len := min value.length EMB_LEN
  ⟨len, value.take len ++ List.replicate (EMB_LEN - len) 0⟩

/-- `impl Into<Vec<u8>> for EmbStr`: the first `len` buffer bytes. -/
def EmbStr.toBytes (e : EmbStr) : List Nat := e.buf.take e.len

/-- `Raw` from `src/storage/object/encoding/sds.rs`. -/
structure Raw where
  buf : List Nat
deriving DecidableEq

/-- `impl From<Vec<u8>> for Raw`. -/
def Raw.ofBytes (buf : List Nat) : Raw := ⟨buf⟩

/-- `impl Into<Vec<u8>> for Raw`. -/
def Raw.toBytes (r : Raw) : List Nat := r.buf

/-- `ObjectType` from `src/object/redis_object.rs`. -/
inductive ObjectType where
  | string
  | list
  | hash
  | set
  | zset
deriving DecidableEq

/-- `ObjectHeader` from `src/object/redis_object.rs`: the packed 8-byte header
as its three fields (type tag, 24-bit recency counter, 32-bit ref count). -/
structure ObjectHeader where
  objType : ObjectType
  lru : Nat
  refCount : Nat
deriving DecidableEq

/-- `ObjectHeader::new()`: the zeroed bitfield — variant 0 of the type tag is
`String`, counters 0. -/
def ObjectHeader.new : ObjectHeader := ⟨.string, 0, 0⟩

/-- `ObjectHeader::with_obj_type`. -/
def ObjectHeader.withObjType (h : ObjectHeader) (t : ObjectType) : ObjectHeader :=
  { h with objType := t }

/-- `RedisValue` from `src/object/redis_object.rs`.  The `LinkedList` variant
owns child objects (`Vec<Box<RedisObject>>` in the source); since `RedisObject`
is the record `{header, ptr}`, children are represented as header–value pairs. -/
inductive RedisValue where
  | int (i : Int)
  | embStr (e : EmbStr)
  | raw (r : Raw)
  | hashTable (entries : List (String × String))
  | linkedList (items : List (ObjectHeader × RedisValue))
  | zipList
  | intSet (s : List Int)
  | skipList

/-- `RedisObject` from `src/object/redis_object.rs`. -/
structure RedisObject where
  header : ObjectHeader
  ptr : RedisValue

/-- `RedisObject::new_string`: inline (`EmbStr`) encoding when the payload
length is at most `EMB_LEN` (54), heap (`Raw`) encoding otherwise. -/
def RedisObject.new_string (buf : List Nat) : RedisObject :=
  if buf.length ≤ EMB_LEN then
    ⟨ObjectHeader.new.withObjType .string, .embStr (EmbStr.ofBytes buf)⟩
  else
    ⟨ObjectHeader.new.withObjType .string, .raw (Raw.ofBytes buf)⟩

/-- `impl Into<RespValue> for RedisObject`: String objects convert to a bulk
string (integer as decimal text, inline/heap string as raw bytes); other object
types convert to a "Not Implemented" error. -/
def RedisObject.toRespValue (o : RedisObject) : RespValue :=
  match o.header.objType with
  | .string =>
    match o.ptr with
    | .int i => .bulkString (some (intToDecimal i))
    | .embStr e => .bulkString (some e.toBytes)
    | .raw r => .bulkString (some r.toBytes)
    | _ => .null
  | .list => .error (asciiBytes "Not Implemented")
  | .hash => .error (asciiBytes "Not Implemented")
  | .set => .error (asciiBytes "Not Implemented")
  | .zset => .error (asciiBytes "Not Implemented")

/-- Association-list lookup modelling `DashMap::get`. -/
def alistGet {α : Type} (l : List (String × α)) (k : String) : Option α :=
  (l.find? (fun p => p.1 == k)).map (·.2)

/-- Association-list removal modelling `DashMap::remove`. -/
def alistRemove {α : Type} (l : List (String × α)) (k : String) : List (String × α) :=
  l.filter (fun p => p.1 != k)

/-- Association-list insertion modelling `DashMap::insert` (replace any
existing entry for the key). -/
def alistInsert {α : Type} (l : List (String × α)) (k : String) (v : α) : List (String × α) :=
  (k, v) :: alistRemove l k

/-- `Database` from `src/storage/database.rs`: the key→object map and the
independent key→expiration-instant map.  Instants are modelled as `Nat`
timestamps; `Instant::now()` is passed explicitly as `now`. -/
structure Database where
  data : List (String × RedisObject)
  expires : List (String × Nat)

/-- `Database::get`: if an expiration record exists and `now` is strictly past
it, remove both records and report absence; otherwise a clone of the stored
object, if any.  Returns the result together with the database after the
(possibly purging) read. -/
def Database.get (db : Database) (now : Nat) (key : String) :
    Option RedisObject × Database :=
  match alistGet db.expires key with
  | some expire =>
    if expire < now then
      (none, ⟨alistRemove db.data key, alistRemove db.expires key⟩)
    else (alistGet db.data key, db)
  | none => (alistGet db.data key, db)

/-- `Database::get_with`: as `get`, but applies the projection `f` in place of
cloning. -/
def Database.getWith {R : Type} (db : Database) (now : Nat) (key : String)
    (f : RedisObject → R) : Option R × Database :=
  match alistGet db.expires key with
  | some expire =>
    if expire < now then
      (none, ⟨alistRemove db.data key, alistRemove db.expires key⟩)
    else ((alistGet db.data key).map f, db)
  | none => ((alistGet db.data key).map f, db)

/-- `Database::set`: unconditionally insert the data record; with a ttl, insert
the absolute expiration `now + ttl`; without one, remove any expiration. -/
def Database.set (db : Database) (now : Nat) (key : String) (value : RedisObject)
    (ttl : Option Nat) : Database :=
  let data := alistInsert db.data key value
  match ttl with
  | some t => ⟨data, alistInsert db.expires key (now + t)⟩
  | none => ⟨data, alistRemove db.expires key⟩

theorem alistGet_insert_self {α : Type} (l : List (String × α)) (k : String) (v : α) :
    alistGet (alistInsert l k v) k = some v := by
  simp [alistGet, alistInsert, List.find?]

theorem alistGet_remove_self {α : Type} (l : List (String × α)) (k : String) :
    alistGet (alistRemove l k) k = none := by
  have hfind : List.find? (fun p => p.1 == k) (alistRemove l k) = none := by
    rw [List.find?_eq_none]
    intro x hx
    have hmem := List.of_mem_filter hx
    simp only [bne_iff_ne, ne_eq] at hmem
    simp [hmem]
  unfold alistGet
  rw [hfind]
  rfl

end Rudis

namespace Rudis

/-- **C7.**  `Database::set(key, object, ttl)` unconditionally overwrites the
data record for the key; with a ttl it records the absolute expiration
`now + ttl`, overwriting any prior expiration; without one it clears any prior
expiration.  (Quantifying over an arbitrary prior database covers the
"overwrite" part.) -/
theorem c7_set_semantics (db : Database) (now : Nat) (k : String) (v : RedisObject)
    (ttl : Option Nat) :
    alistGet (Database.set db now k v ttl).data k = some v ∧
      alistGet (Database.set db now k v ttl).expires k = ttl.map (fun t => now + t) := by
  unfold Database.set
  cases ttl with
  | none => exact ⟨alistGet_insert_self _ _ _, alistGet_remove_self _ _⟩
  | some t => exact ⟨alistGet_insert_self _ _ _, alistGet_insert_self _ _ _⟩

/-- **C8.**  `Database::get` (and `get_with`) on a key whose expiration record
lies strictly in the past removes both the data and the expiration record and
reports absence; consequently, setting a key with ttl 0 at time `t0` and
reading it at a later time `t1` purges both records, and a subsequent ttl-less
set stores the key with no expiration. -/
theorem c8_get_expired_purges (db : Database) (now : Nat) (k : String) (e : Nat)
    (R : Type) (f : RedisObject → R) (db0 : Database) (t0 t1 t2 : Nat)
    (v v' : RedisObject) (he : alistGet db.expires k = some e) (hpast : e < now)
    (ht01 : t0 < t1) :
    ((Database.get db now k).1 = none ∧
      alistGet (Database.get db now k).2.data k = none ∧
      alistGet (Database.get db now k).2.expires k = none) ∧
    ((Database.getWith db now k f).1 = none ∧
      alistGet (Database.getWith db now k f).2.data k = none ∧
      alistGet (Database.getWith db now k f).2.expires k = none) ∧
    ((Database.get (Database.set db0 t0 k v (some 0)) t1 k).1 = none ∧
      alistGet (Database.get (Database.set db0 t0 k v (some 0)) t1 k).2.data k = none ∧
      alistGet (Database.get (Database.set db0 t0 k v (some 0)) t1 k).2.expires k = none ∧
      alistGet (Database.set (Database.get (Database.set db0 t0 k v (some 0)) t1 k).2
          t2 k v' none).data k = some v' ∧
      alistGet (Database.set (Database.get (Database.set db0 t0 k v (some 0)) t1 k).2
          t2 k v' none).expires k = none) := by
  have hget : Database.get db now k =
      (none, ⟨alistRemove db.data k, alistRemove db.expires k⟩) := by
    unfold Database.get
    simp only [he]
    rw [if_pos hpast]
  have hgetWith : Database.getWith db now k f =
      (none, ⟨alistRemove db.data k, alistRemove db.expires k⟩) := by
    unfold Database.getWith
    simp only [he]
    rw [if_pos hpast]
  have hdb1 : alistGet (Database.set db0 t0 k v (some 0)).expires k = some (t0 + 0) :=
    alistGet_insert_self _ _ _
  have hget1 : Database.get (Database.set db0 t0 k v (some 0)) t1 k =
      (none, ⟨alistRemove (Database.set db0 t0 k v (some 0)).data k,
        alistRemove (Database.set db0 t0 k v (some 0)).expires k⟩) := by
    unfold Database.get
    simp only [hdb1]
    rw [if_pos (show t0 + 0 < t1 by omega)]
  refine ⟨?_, ?_, ?_⟩
  · rw [hget]
    exact ⟨rfl, alistGet_remove_self _ _, alistGet_remove_self _ _⟩
  · rw [hgetWith]
    exact ⟨rfl, alistGet_remove_self _ _, alistGet_remove_self _ _⟩
  · rw [hget1]
    refine ⟨rfl, alistGet_remove_self _ _, alistGet_remove_self _ _, ?_, ?_⟩
    · exact alistGet_insert_self _ _ _
    · exact alistGet_remove_self _ _

/-- Witness for C8 at a concrete state: key `"k"` expired at instant 0, read at
instant 1; the scenario replays with `t0 = 0 < t1 = 1`, `t2 = 2`. -/
theorem c8_get_expired_purges_witness :
    (alistGet (⟨[], [("k", 0)]⟩ : Database).expires "k" = some 0 ∧ 0 < 1 ∧ 0 < 1) ∧
      (((Database.get ⟨[], [("k", 0)]⟩ 1 "k").1 = none ∧
        alistGet (Database.get ⟨[], [("k", 0)]⟩ 1 "k").2.data "k" = none ∧
        alistGet (Database.get ⟨[], [("k", 0)]⟩ 1 "k").2.expires "k" = none) ∧
      ((Database.getWith ⟨[], [("k", 0)]⟩ 1 "k" (fun o => o.ptr)).1 = none ∧
        alistGet (Database.getWith ⟨[], [("k", 0)]⟩ 1 "k" (fun o => o.ptr)).2.data "k" = none ∧
        alistGet (Database.getWith ⟨[], [("k", 0)]⟩ 1 "k" (fun o => o.ptr)).2.expires "k" =
          none) ∧
      ((Database.get (Database.set ⟨[], []⟩ 0 "k" (RedisObject.new_string [118]) (some 0))
            1 "k").1 = none ∧
        alistGet (Database.get (Database.set ⟨[], []⟩ 0 "k" (RedisObject.new_string [118])
            (some 0)) 1 "k").2.data "k" = none ∧
        alistGet (Database.get (Database.set ⟨[], []⟩ 0 "k" (RedisObject.new_string [118])
            (some 0)) 1 "k").2.expires "k" = none ∧
        alistGet (Database.set (Database.get (Database.set ⟨[], []⟩ 0 "k"
            (RedisObject.new_string [118]) (some 0)) 1 "k").2 2 "k"
            (RedisObject.new_string [119]) none).data "k" =
          some (RedisObject.new_string [119]) ∧
        alistGet (Database.set (Database.get (Database.set ⟨[], []⟩ 0 "k"
            (RedisObject.new_string [118]) (some 0)) 1 "k").2 2 "k"
            (RedisObject.new_string [119]) none).expires "k" = none)) :=
  ⟨⟨rfl, by omega, by omega⟩,
    c8_get_expired_purges ⟨[], [("k", 0)]⟩ 1 "k" 0 RedisValue (fun o => o.ptr)
      ⟨[], []⟩ 0 1 2 (RedisObject.new_string [118]) (RedisObject.new_string [119])
      rfl (by omega) (by omega)⟩

theorem EmbStr.toBytes_ofBytes (v : List Nat) (h : v.length ≤ EMB_LEN) :
    (EmbStr.ofBytes v).toBytes = v := by
  unfold EmbStr.ofBytes EmbStr.toBytes
  simp only
  have hmin : min v.length EMB_LEN = v.length := by omega
  rw [hmin, List.take_length, List.take_left]

/-- **C9.**  `RedisObject::new_string` chooses the inline `EmbStr` encoding
exactly when the payload is at most 54 bytes and the heap `Raw` encoding for
55 bytes or more, and in both cases converting the object to a wire value
yields a bulk string holding exactly the original payload bytes. -/
theorem c9_new_string_encoding (buf : List Nat) :
    ((RedisObject.new_string buf).ptr = .embStr (EmbStr.ofBytes buf) ↔ buf.length ≤ 54) ∧
      ((RedisObject.new_string buf).ptr = .raw (Raw.ofBytes buf) ↔ 55 ≤ buf.length) ∧
      (RedisObject.new_string buf).toRespValue = .bulkString (some buf) := by
  by_cases h : buf.length ≤ EMB_LEN
  · have hobj : RedisObject.new_string buf =
        ⟨ObjectHeader.new.withObjType .string, .embStr (EmbStr.ofBytes buf)⟩ := by
      unfold RedisObject.new_string
      rw [if_pos h]
    have hle : buf.length ≤ 54 := h
    refine ⟨⟨fun _ => hle, fun _ => by rw [hobj]⟩, ⟨fun hc => ?_, fun hc => by
      unfold EMB_LEN at h; omega⟩, ?_⟩
    · rw [hobj] at hc
      exact absurd hc (by simp)
    · rw [hobj]
      unfold RedisObject.toRespValue
      simp only
      rw [EmbStr.toBytes_ofBytes buf h]
      rfl
  · have hobj : RedisObject.new_string buf =
        ⟨ObjectHeader.new.withObjType .string, .raw (Raw.ofBytes buf)⟩ := by
      unfold RedisObject.new_string
      rw [if_neg h]
    unfold EMB_LEN at h
    refine ⟨⟨fun hc => ?_, fun hc => by omega⟩, ⟨fun _ => by omega, fun _ => by rw [hobj]⟩, ?_⟩
    · rw [hobj] at hc
      exact absurd hc (by simp)
    · rw [hobj]
      unfold RedisObject.toRespValue
      simp only
      rfl

end Rudis

namespace Rudis

/-- `get_range` from `src/command/string/getrange.rs`: compute the byte range for
signed start/end indices (end inclusive); `none` means an empty reply.  The
returned pair is the half-open range `start..end+1` produced by the source. -/
def intClamp (x lo hi : Int) : Int := if x < lo then lo else if x > hi then hi else x

def get_range (len : Nat) (start endIdx : Int) : Option (Nat × Nat) :=
  if len = 0 ∨ start > (len : Int) ∨ (start < 0 ∧ endIdx < 0 ∧ start > endIdx) then none
  else
    let toPos : Int → Int := fun index => if index < 0 then (len : Int) + index else index
    let s := intClamp (toPos start) 0 ((len : Int) - 1)
    let e := intClamp (toPos endIdx) 0 ((len : Int) - 1)
    if s ≤ e then some (s.toNat, e.toNat + 1) else none

/-- Rust `i64::to_be_bytes`: the eight big-endian bytes of the two's-complement
representation. -/
def intToBeBytes (i : Int) : List Nat :=
  let u := (i % (2 ^ 64 : Int)).toNat
  [u / 2 ^ 56 % 256, u / 2 ^ 48 % 256, u / 2 ^ 40 % 256, u / 2 ^ 32 % 256,
    u / 2 ^ 24 % 256, u / 2 ^ 16 % 256, u / 2 ^ 8 % 256, u % 256]

/-- `GetRangeCommand` from `src/command/string/getrange.rs`
(the `end` field is `endIdx` here: `end` is reserved in Lean). -/
structure GetRangeCommand where
  key : String
  start : Int
  endIdx : Int

/-- `GetRangeCommand::execute`: look the key up (purging it if expired), demand
a String-typed object, extract its bytes (big-endian for the integer encoding),
then reply with the requested slice, or a null bulk string when `get_range`
yields no range or the key is absent.  Returns the reply and the database after
the read. -/
def GetRangeCommand.execute (cmd : GetRangeCommand) (db : Database) (now : Nat) :
    Except CommandError RespValue × Database :=
  match Database.get db now cmd.key with
  | (some o, db2) =>
    if o.header.objType ≠ .string then (.error .wrongType, db2)
    else
      let bytes : List Nat :=
        match o.ptr with
        | .int i => intToBeBytes i
        | .embStr es => es.toBytes
        | .raw r => r.toBytes
        | _ => []
      match get_range bytes.length cmd.start cmd.endIdx with
      | some r => (.ok (.bulkString (some ((bytes.drop r.1).take (r.2 - r.1)))), db2)
      | none => (.ok (.bulkString none), db2)
  | (none, db2) => (.ok (.bulkString none), db2)

/-- `GetCommand` from `src/command/string/get.rs`. -/
structure GetCommand where
  key : String

/-- `GetCommand::execute`: reply with the stored object's wire conversion, or
`Null` when the key is absent.  Returns the reply and the database after the
read. -/
def GetCommand.execute (cmd : GetCommand) (db : Database) (now : Nat) :
    Except CommandError RespValue × Database :=
  match Database.get db now cmd.key with
  | (some o, db2) => (.ok o.toRespValue, db2)
  | (none, db2) => (.ok .null, db2)

/-- `ValueEntry` from `src/main.rs` (the standalone server's storage record). -/
structure ValueEntry where
  value : List Nat
  expiry : Option Nat

/-- The `"GET"` branch of `handle_socket` in `src/main.rs`: reply
`+{value}\r\n` for a present key and the null-bulk-string bytes `$-1\r\n` for
an absent one. -/
def mainGetReply (storage : List (String × ValueEntry)) (key : String) : List Nat :=
  match alistGet storage key with
  | some entry => asciiBytes "+" ++ entry.value ++ asciiBytes "\r\n"
  | none => asciiBytes "$-1\r\n"

/-- **C10.**  Whenever `get_range` returns a range, it is well-formed and within
the string: `start ≤ end` and `end ≤ len`, so the byte-slice indexing
`&bytes[range]` in `GetRangeCommand::execute` is in bounds and cannot panic. -/
theorem c10_get_range_in_bounds (len : Nat) (start endIdx : Int) (a b : Nat)
    (h : get_range len start endIdx = some (a, b)) : a ≤ b ∧ b ≤ len := by
  simp only [get_range, intClamp] at h
  split_ifs at h <;>
    first
      | exact absurd h (fun hc => Option.noConfusion hc)
      | (simp only [Option.some.injEq, Prod.mk.injEq] at h
         omega)

/-- Witness for C10 at a concrete input: `get_range 5 0 (-1) = some (0, 5)` is
within a 5-byte string. -/
theorem c10_get_range_in_bounds_witness :
    get_range 5 0 (-1) = some (0, 5) ∧ 0 ≤ 5 ∧ 5 ≤ 5 :=
  have h : get_range 5 0 (-1) = some (0, 5) := by decide
  ⟨h, (c10_get_range_in_bounds 5 0 (-1) 0 5 h).1,
    (c10_get_range_in_bounds 5 0 (-1) 0 5 h).2⟩

/-- The database holding `k = "hello"` for the C3 scenario. -/
def dbHello : Database :=
  Database.set ⟨[], []⟩ 0 "k" (RedisObject.new_string (asciiBytes "hello")) none

/-- **C3 (amended).**  GETRANGE on `k = "hello"`: start 0, end −1 replies the
bulk string `"hello"`; start 5, end 10 replies the bulk string `"o"` — the
guard `start > len` lets `start = len` through, and clamping then yields the
final byte — not a null bulk string. -/
theorem c3_getrange_hello :
    (GetRangeCommand.execute ⟨"k", 0, -1⟩ dbHello 1).1 =
        .ok (.bulkString (some (asciiBytes "hello"))) ∧
      (GetRangeCommand.execute ⟨"k", 5, 10⟩ dbHello 1).1 =
        .ok (.bulkString (some (asciiBytes "o"))) :=
  ⟨rfl, rfl⟩

/-- **C3 (counterexample).**  With `k = "hello"`, start 5, end 10, the reply is
the bulk string `"o"`, not the claimed null bulk string. -/
theorem c3_counterexample :
    (GetRangeCommand.execute ⟨"k", 5, 10⟩ dbHello 1).1 =
        .ok (.bulkString (some [111])) ∧
      (Except.ok (RespValue.bulkString (some [111])) : Except CommandError RespValue) ≠
        .ok (.bulkString none) :=
  ⟨rfl, by simp⟩

/-- **C5 (amended).**  GET on a key absent from the store replies the protocol
`Null` value (`GetCommand::execute`); the legacy inline handler in `main.rs`
replies the null-bulk-string bytes `$-1\r\n`. -/
theorem c5_get_missing :
    (GetCommand.execute ⟨"missing"⟩ ⟨[], []⟩ 0).1 = .ok RespValue.null ∧
      mainGetReply [] "missing" = asciiBytes "$-1\r\n" :=
  ⟨rfl, rfl⟩

/-- **C5 (counterexample).**  `GetCommand::execute` on an absent key replies
`Null`, which is a different reply value (and wire form `_\r\n`) from the
claimed null bulk string. -/
theorem c5_counterexample :
    (GetCommand.execute ⟨"missing"⟩ ⟨[], []⟩ 0).1 = .ok RespValue.null ∧
      (Except.ok RespValue.null : Except CommandError RespValue) ≠ .ok (.bulkString none) :=
  ⟨rfl, by simp⟩

end Rudis
